import Mathlib

/-!
Shallow embedding of `queuectl.py` (FLAM background job queue).

The jobs table is a `List Job`; `id` is the primary key (unique in every
store we consider).  Timestamps (`created_at`, `updated_at` ISO strings in
the source, `next_run` epoch seconds) are modelled as integers: the
source's ISO strings compare lexicographically exactly as their instants
compare numerically, so `ORDER BY created_at` / `ORDER BY updated_at DESC`
become integer comparisons.  Job states are the literal strings the source
stores in the `state` column.
-/

/-- A row of the `jobs` table (schema in `init_db`, queuectl.py lines 55-66). -/
structure Job where
  id : String
  command : String
  state : String
  attempts : Nat
  max_retries : Int
  created_at : Int
  updated_at : Int
  next_run : Int
  last_exit_code : Option Int
  priority : Int
  deriving Repr, DecidableEq

/-- `UPDATE jobs SET ... WHERE id = jid`: apply `f` to the row keyed `jid`. -/
def updateById (jid : String) (f : Job → Job) (s : List Job) : List Job :=
  s.map (fun j => if j.id = jid then f j else j)

/-- Eligibility filter of the claim subquery:
`WHERE state='pending' AND next_run <= ?` (queuectl.py line 216). -/
def eligible (now : Int) (j : Job) : Bool :=
  j.state == "pending" && j.next_run ≤ now

/-- `ORDER BY priority DESC, created_at` (queuectl.py line 217):
`a` sorts strictly before `b`. -/
def better (a b : Job) : Bool :=
  b.priority < a.priority || (a.priority == b.priority && a.created_at < b.created_at)

/-- Keep the row that sorts first. -/
def chooseBest (acc : Option Job) (j : Job) : Option Job :=
  match acc with
  | none => some j
  | some b => if better j b then some j else some b

/-- The claim subquery `SELECT id FROM jobs WHERE state='pending' AND
next_run <= ? ORDER BY priority DESC, created_at LIMIT 1`
(queuectl.py lines 215-218). -/
def selectJob (now : Int) (s : List Job) : Option Job :=
  (s.filter (eligible now)).foldl chooseBest none

/-- The `SET` clause of the claim `UPDATE` (queuectl.py line 213):
`state='processing', attempts=attempts+1, updated_at=?, next_run=?`,
where `updated_at` receives `now_iso()` and `next_run` receives `ts_now`. -/
def claimMut (nowT nowIso : Int) (j : Job) : Job :=
  { j with state := "processing", attempts := j.attempts + 1,
           updated_at := nowIso, next_run := nowT }

/-- The whole claim `UPDATE` statement (queuectl.py lines 211-220).  Returns
the id of the row the statement mutated (the row `cur.rowcount` counted;
`none` when `rowcount == 0`) together with the table afterwards. -/
def claimStep (nowT nowIso : Int) (s : List Job) : Option String × List Job :=
  match selectJob nowT s with
  | none => (none, s)
  | some j => (some j.id, updateById j.id (claimMut nowT nowIso) s)

/-- `updated_at DESC`: `a` sorts strictly before `b`. -/
def laterUpdated (a b : Job) : Bool :=
  b.updated_at < a.updated_at

/-- The follow-up lookup `SELECT * FROM jobs WHERE state='processing'
ORDER BY updated_at DESC LIMIT 1` by which the worker discovers which job
it claimed (queuectl.py line 225). -/
def lookupClaimed (s : List Job) : Option Job :=
  (s.filter (fun j => j.state == "processing")).foldl
    (fun acc j =>
      match acc with
      | none => some j
      | some b => if laterUpdated j b then some j else some b) none

/-- Outcome of running a claimed job's command under the deadline
(queuectl.py lines 235-243): either the process finished within
`job_timeout` seconds with its real exit code, or `proc.wait(timeout=...)`
raised `TimeoutExpired` and the process was killed. -/
inductive ExecOutcome where
  | finished (code : Int)
  | timedOut
  deriving Repr, DecidableEq

/-- The exit code the worker records for an execution outcome: the real
code on normal completion, and the sentinel `-1` set in the
`TimeoutExpired` handler (queuectl.py line 242). -/
def recordedExit : ExecOutcome → Int
  | .finished code => code
  | .timedOut => -1

/-- The executor deadline (queuectl.py lines 237-243): a command that runs
for `duration` seconds finishes normally iff `duration ≤ timeout`,
otherwise `proc.wait` raises `TimeoutExpired` and the process is killed. -/
def execute (timeout duration code : Int) : ExecOutcome :=
  if duration ≤ timeout then .finished code else .timedOut

/-- The post-execution persist applied to the row it updates
(queuectl.py lines 245-264): record `last_exit_code` and `updated_at`,
then branch — exit 0 ⇒ `completed`; non-zero with `attempts > max_retries`
⇒ `dead`; otherwise back to `pending` with
`next_run = now_ts() + base ** attempts`.  The branch condition and the
backoff exponent use the Python variables `attempts`/`max_retries` read
from the fetched row (`fetched`, post-increment values, queuectl.py
line 230); the columns are written onto the stored `row` keyed by the
fetched id. -/
def decideRow (exit_code base nowT nowIso : Int) (fetched row : Job) : Job :=
  let row0 := { row with last_exit_code := some exit_code, updated_at := nowIso }
  if exit_code = 0 then
    { row0 with state := "completed" }
  else if (fetched.attempts : Int) > fetched.max_retries then
    { row0 with state := "dead" }
  else
    { row0 with state := "pending", next_run := nowT + base ^ fetched.attempts }

/-- The decision engine on a single job: `decideRow` in the ordinary case
where the stored row is the very row the worker fetched. -/
def decideOutcome (exit_code base nowT nowIso : Int) (j : Job) : Job :=
  decideRow exit_code base nowT nowIso j j

/-- Persisting the outcome into the table: the `UPDATE ... WHERE id=?`
statements of the decision branch (queuectl.py lines 245-263), keyed by
the id of the row the worker fetched. -/
def persistOutcome (exit_code base nowT nowIso : Int) (fetched : Job)
    (s : List Job) : List Job :=
  updateById fetched.id (decideRow exit_code base nowT nowIso fetched) s

/-- One iteration of the worker loop body on the jobs table
(queuectl.py lines 208-265): the claim `UPDATE`; on `rowcount == 0` the
loop sleeps and retries with the table unchanged; otherwise the worker
looks its job up with `lookupClaimed`, executes that job's command, and
persists the decision keyed by the fetched row. `exitOf` gives the exit
code the execution of a command produces at this iteration. -/
def workerIter (exitOf : String → Int) (base nowT nowIso : Int)
    (s : List Job) : List Job :=
  match claimStep nowT nowIso s with
  | (none, s1) => s1
  | (some _, s1) =>
    match lookupClaimed s1 with
    | none => s1
    | some fetched =>
        persistOutcome (exitOf fetched.command) base nowT nowIso fetched s1

/-- An enqueue payload after JSON parsing (queuectl.py lines 113-129):
fields present/absent in the decoded object, already carrying the types
`int(...)`/string extraction produces. -/
structure Payload where
  id : Option String
  command : Option String
  max_retries : Option Int
  priority : Option Int
  run_at : Option Int
  deriving Repr, DecidableEq

/-- Result of an enqueue invocation: invalid input (JSON error or missing
required field, `sys.exit(1)` paths), duplicate-id conflict
(`sqlite3.IntegrityError` path), or successful insert. -/
inductive EnqResult where
  | invalid
  | conflict
  | inserted
  deriving Repr, DecidableEq

/-- The row the `INSERT` of `enqueue` adds (queuectl.py lines 135-139):
`state='pending'`, `attempts=0`, defaults `max_retries=3`, `priority=0`,
`run_at=now_ts()`, both timestamp columns set to `now_iso()`. -/
def insertedRow (p : Payload) (jid cmd : String) (nowT nowIso : Int) : Job :=
  { id := jid, command := cmd, state := "pending",
    attempts := 0, max_retries := p.max_retries.getD 3,
    created_at := nowIso, updated_at := nowIso,
    next_run := p.run_at.getD nowT, last_exit_code := none,
    priority := p.priority.getD 0 }

/-- `enqueue` (queuectl.py lines 111-145).  `input = none` models a payload
that failed to parse as JSON. -/
def enqueue (input : Option Payload) (nowT nowIso : Int) (s : List Job) :
    EnqResult × List Job :=
  match input with
  | none => (.invalid, s)
  | some p =>
    match p.id, p.command with
    | some jid, some cmd =>
        if s.any (fun j => j.id == jid) then
          (.conflict, s)
        else
          (.inserted, s ++ [insertedRow p jid cmd nowT nowIso])
    | _, _ => (.invalid, s)

/-- The `SET` clause of the DLQ-retry `UPDATE` (queuectl.py line 354):
`state='pending', attempts=0, next_run=now_ts(), updated_at=now_iso()`. -/
def dlqReset (nowT nowIso : Int) (j : Job) : Job :=
  { j with state := "pending", attempts := 0,
           next_run := nowT, updated_at := nowIso }

/-- `dlq retry` (queuectl.py lines 346-358).  The boolean is whether the
lookup `SELECT * FROM jobs WHERE id=? AND state='dead'` found a row; on
`false` the command reports "DLQ job not found" and returns with the table
untouched, on `true` it runs the `UPDATE` keyed by the id. -/
def dlq_retry (nowT nowIso : Int) (jid : String) (s : List Job) :
    Bool × List Job :=
  if s.any (fun j => j.id == jid && j.state == "dead") then
    (true, updateById jid (dlqReset nowT nowIso) s)
  else
    (false, s)

/-- The states the four writing operations ever store (the `status` display
at queuectl.py line 281 additionally enumerates a `failed` state that no
write ever produces). -/
def writtenStates : List String :=
  ["pending", "processing", "completed", "dead"]

/-- Every row of the table carries one of the four written states. -/
def StoreOK (s : List Job) : Prop :=
  ∀ j ∈ s, j.state ∈ writtenStates

/-! ### Concrete tables used by the closed theorems -/

/-- A pending job created first (at 0); eligible from time 0. -/
def cJobA : Job :=
  { id := "jobA", command := "echo a", state := "pending", attempts := 0,
    max_retries := 3, created_at := 0, updated_at := 0, next_run := 0,
    last_exit_code := none, priority := 0 }

/-- A pending job created second (at 1); eligible from time 0. -/
def cJobB : Job :=
  { id := "jobB", command := "echo b", state := "pending", attempts := 0,
    max_retries := 3, created_at := 1, updated_at := 1, next_run := 0,
    last_exit_code := none, priority := 0 }

/-- The shared table two concurrent workers contend on. -/
def raceTable : List Job := [cJobA, cJobB]

/-- Worker 1's claim `UPDATE`, run at t = 10. -/
def raceClaim1 : Option String × List Job := claimStep 10 10 raceTable

/-- Worker 2's claim `UPDATE`, run at t = 11, interleaved before worker 1
reaches its follow-up lookup (each statement is individually atomic; the
two statements of one worker are not). -/
def raceClaim2 : Option String × List Job := claimStep 11 11 raceClaim1.2

/-- A pending job whose `next_run` (5) lies strictly before the claim
instant used against it. -/
def cJobD : Job :=
  { id := "jobD", command := "echo d", state := "pending", attempts := 0,
    max_retries := 3, created_at := 0, updated_at := 0, next_run := 5,
    last_exit_code := none, priority := 0 }

/-- The job of the spec's §8 scenario: always fails, `max_retries = 2`. -/
def cJobF : Job :=
  { id := "f1", command := "false", state := "pending", attempts := 0,
    max_retries := 2, created_at := 0, updated_at := 0, next_run := 0,
    last_exit_code := none, priority := 0 }

/-- An execution environment in which every command exits 1. -/
def failExit : String → Int := fun _ => 1

/-- Worker iterations over `[cJobF]` with `backoff_base = 2`, each run at
the earliest instant at which the job is again eligible. -/
def failTrace1 : List Job := workerIter failExit 2 0 0 [cJobF]

def failTrace2 : List Job := workerIter failExit 2 2 2 failTrace1

def failTrace3 : List Job := workerIter failExit 2 6 6 failTrace2

/-- A job in the dead-letter queue. -/
def cJobDead : Job :=
  { id := "jobX", command := "false", state := "dead", attempts := 3,
    max_retries := 2, created_at := 0, updated_at := 9, next_run := 0,
    last_exit_code := some 1, priority := 0 }

/-! ### Properties of the claim subquery -/

lemma better_iff (a b : Job) :
    better a b = true ↔
      b.priority < a.priority ∨
        (a.priority = b.priority ∧ a.created_at < b.created_at) := by
  simp [better]

lemma better_irrefl (a : Job) : better a a = false := by
  simp [better]

lemma better_false_trans {a b c : Job} (h1 : better a b = false)
    (h2 : better b c = false) : better a c = false := by
  rw [Bool.eq_false_iff, Ne, better_iff] at h1 h2 ⊢
  omega

lemma better_cases {a b c : Job} (h1 : better a b = true)
    (h2 : better a c = false) : better b c = false := by
  rw [better_iff] at h1
  rw [Bool.eq_false_iff, Ne, better_iff] at h2 ⊢
  omega

lemma eligible_iff (now : Int) (j : Job) :
    eligible now j = true ↔ j.state = "pending" ∧ j.next_run ≤ now := by
  simp [eligible]

lemma foldl_chooseBest_isSome (l : List Job) (b : Job) :
    ∃ c, l.foldl chooseBest (some b) = some c := by
  induction l generalizing b with
  | nil => exact ⟨b, rfl⟩
  | cons x xs ih =>
    simp only [List.foldl_cons, chooseBest]
    by_cases h : better x b = true
    · simp only [h, if_true]
      exact ih x
    · simp only [h, if_false]
      exact ih b

lemma foldl_chooseBest_mem :
    ∀ (l : List Job) (acc : Option Job) (j : Job),
      l.foldl chooseBest acc = some j → j ∈ l ∨ acc = some j := by
  intro l
  induction l with
  | nil =>
    intro acc j h
    exact Or.inr h
  | cons x xs ih =>
    intro acc j h
    rw [List.foldl_cons] at h
    rcases ih (chooseBest acc x) j h with hm | he
    · exact Or.inl (List.mem_cons_of_mem _ hm)
    · cases acc with
      | none =>
        simp only [chooseBest] at he
        cases he
        exact Or.inl (List.mem_cons_self _ _)
      | some b =>
        simp only [chooseBest] at he
        by_cases hb : better x b = true
        · rw [if_pos hb] at he
          cases he
          exact Or.inl (List.mem_cons_self _ _)
        · rw [if_neg hb] at he
          exact Or.inr he

lemma foldl_chooseBest_opt :
    ∀ (l : List Job) (acc : Option Job) (j : Job),
      l.foldl chooseBest acc = some j →
      (∀ x ∈ l, better x j = false) ∧
        (∀ b, acc = some b → better b j = false) := by
  intro l
  induction l with
  | nil =>
    intro acc j h
    refine ⟨fun x hx => absurd hx (List.not_mem_nil x), fun b hb => ?_⟩
    rw [hb] at h
    cases h
    exact better_irrefl j
  | cons x xs ih =>
    intro acc j h
    rw [List.foldl_cons] at h
    obtain ⟨hxs, hacc⟩ := ih (chooseBest acc x) j h
    have hx : better x j = false := by
      cases acc with
      | none => exact hacc x rfl
      | some b =>
        by_cases hb : better x b = true
        · exact hacc x (by simp [chooseBest, hb])
        · have hbj : better b j = false := hacc b (by simp [chooseBest, hb])
          exact better_false_trans (Bool.eq_false_iff.mpr hb) hbj
    refine ⟨fun y hy => ?_, fun c hc => ?_⟩
    · rcases List.mem_cons.mp hy with rfl | hmem
      · exact hx
      · exact hxs y hmem
    · cases hc
      by_cases hb : better x c = true
      · exact better_cases hb hx
      · exact hacc c (by simp [chooseBest, hb])

lemma selectJob_spec {now : Int} {s : List Job} {j : Job}
    (h : selectJob now s = some j) :
    j ∈ s ∧ eligible now j = true ∧
      ∀ k ∈ s, eligible now k = true → better k j = false := by
  unfold selectJob at h
  rcases foldl_chooseBest_mem _ none j h with hm | hne
  · have hj := List.mem_filter.mp hm
    refine ⟨hj.1, hj.2, fun k hk hel => ?_⟩
    exact (foldl_chooseBest_opt _ none j h).1 k (List.mem_filter.mpr ⟨hk, hel⟩)
  · cases hne

lemma selectJob_eq_none_iff (now : Int) (s : List Job) :
    selectJob now s = none ↔ ∀ j ∈ s, eligible now j = false := by
  unfold selectJob
  rcases hf : s.filter (eligible now) with _ | ⟨x, xs⟩
  · constructor
    · intro _ j hj
      simpa using List.filter_eq_nil_iff.mp hf j hj
    · intro _
      rfl
  · constructor
    · intro h
      obtain ⟨c, hc⟩ := foldl_chooseBest_isSome xs x
      rw [List.foldl_cons] at h
      simp only [chooseBest] at h
      rw [hc] at h
      cases h
    · intro hall
      have hx : x ∈ s.filter (eligible now) := by
        rw [hf]
        exact List.mem_cons_self x xs
      have hm := List.mem_filter.mp hx
      rw [hall x hm.1] at hm
      cases hm.2

/-! ### The claims -/

/-- C1: the claim invocation is required to hand each worker the row its
own atomic claim `UPDATE` mutated, so that no job is executed by two
workers and no eligible claim is lost.  The worker loop instead issues a
second, independent lookup for the most recently updated `processing` row
(queuectl.py line 225).  Interleaving two workers' claim statements over
the two-job table `raceTable` refutes the property: worker 1's `UPDATE`
mutates `jobA`, worker 2's `UPDATE` mutates `jobB`, and then both workers'
lookups return `jobB` — worker 1 obtains a row claimed by a different
caller, `jobB` is double-executed, and `jobA` is never executed. -/
theorem claim_C1_lookup_races :
    raceClaim1.1 = some "jobA" ∧
    raceClaim2.1 = some "jobB" ∧
    (lookupClaimed raceClaim2.2).map Job.id = some "jobB" ∧
    (lookupClaimed raceClaim2.2).map Job.id ≠ raceClaim1.1 := by
  refine ⟨by decide, by decide, by decide, by decide⟩

/-- C2: after an execution with exit code `e ≠ 0` and post-increment
attempt count `a`, the job becomes `dead` when `a > max_retries` and
otherwise returns to `pending` with `next_run = now + base ^ a`; with
`max_retries = r` the dead transition is taken exactly at execution
`r + 1`.  The closing conjunct runs the spec's §8 scenario (`max_retries
= 2`, `backoff_base = 2`, always-failing command) through the actual
worker-loop operations: delays 2 then 4, dead at the third execution with
`attempts = 3`, and no further execution once dead. -/
theorem claim_C2_retry_backoff :
    (∀ (e base nowT nowIso : Int) (j : Job), e ≠ 0 →
      ((j.attempts : Int) > j.max_retries →
          (decideOutcome e base nowT nowIso j).state = "dead") ∧
      ((j.attempts : Int) ≤ j.max_retries →
          (decideOutcome e base nowT nowIso j).state = "pending" ∧
          (decideOutcome e base nowT nowIso j).next_run
            = nowT + base ^ j.attempts)) ∧
    (∀ (r : ℕ) (e base nowT nowIso : Int) (j : Job), e ≠ 0 →
        j.max_retries = (r : Int) →
        (j.attempts ≤ r →
          (decideOutcome e base nowT nowIso j).state = "pending") ∧
        (j.attempts = r + 1 →
          (decideOutcome e base nowT nowIso j).state = "dead")) ∧
    (failTrace1.map (fun j => (j.state, j.attempts, j.next_run))
        = [("pending", 1, 2)] ∧
     workerIter failExit 2 1 1 failTrace1 = failTrace1 ∧
     failTrace2.map (fun j => (j.state, j.attempts, j.next_run))
        = [("pending", 2, 6)] ∧
     failTrace3.map (fun j => (j.state, j.attempts))
        = [("dead", 3)] ∧
     workerIter failExit 2 100 100 failTrace3 = failTrace3) := by
  refine ⟨?_, ?_, by decide, by decide, by decide, by decide, by decide⟩
  · intro e base nowT nowIso j he
    constructor
    · intro hgt
      simp [decideOutcome, decideRow, he, hgt]
    · intro hle
      simp [decideOutcome, decideRow, he, not_lt.mpr hle]
  · intro r e base nowT nowIso j he hmr
    constructor
    · intro hle
      have : ¬ (j.attempts : Int) > j.max_retries := by
        rw [hmr]
        omega
      simp [decideOutcome, decideRow, he, this]
    · intro heq
      have : (j.attempts : Int) > j.max_retries := by
        rw [hmr, heq]
        omega
      simp [decideOutcome, decideRow, he, this]

/-- C3: the claim subquery considers exactly the jobs with
`state = 'pending'` and `next_run ≤ now`, picks the one of highest
priority with ties broken by earliest `created_at`, and when no such job
exists the claim statement reports no mutated row and leaves the table
unchanged. -/
theorem claim_C3_selection (now nowIso : Int) (s : List Job) :
    (∀ j, selectJob now s = some j →
        j ∈ s ∧ j.state = "pending" ∧ j.next_run ≤ now ∧
        ∀ k ∈ s, k.state = "pending" → k.next_run ≤ now →
          k.priority < j.priority ∨
            (k.priority = j.priority ∧ j.created_at ≤ k.created_at)) ∧
    ((∀ j ∈ s, ¬(j.state = "pending" ∧ j.next_run ≤ now)) →
        claimStep now nowIso s = (none, s)) := by
  constructor
  · intro j hj
    obtain ⟨hmem, hel, hopt⟩ := selectJob_spec hj
    obtain ⟨hst, hnr⟩ := (eligible_iff now j).mp hel
    refine ⟨hmem, hst, hnr, fun k hk hks hkr => ?_⟩
    have hb := hopt k hk ((eligible_iff now k).mpr ⟨hks, hkr⟩)
    rw [Bool.eq_false_iff, Ne, better_iff] at hb
    omega
  · intro hnone
    have hsel : selectJob now s = none := by
      rw [selectJob_eq_none_iff]
      intro j hj
      rw [Bool.eq_false_iff, Ne, eligible_iff]
      exact hnone j hj
    simp [claimStep, hsel]

/-- C4 counterexample: the claim `UPDATE` also writes `next_run`
(queuectl.py line 213 sets `next_run = ts_now`), so `next_run` is not
among the untouched fields: claiming `cJobD` (whose `next_run` is 5) at
t = 10 changes its `next_run` to 10. -/
theorem claim_C4_next_run_written :
    (claimStep 10 10 [cJobD]).1 = some "jobD" ∧
    (claimStep 10 10 [cJobD]).2.map Job.next_run ≠ [cJobD].map Job.next_run := by
  refine ⟨by decide, by decide⟩

/-- C4 amended: when `claim(now)` selects a job it atomically sets that
job's state to `processing`, increments `attempts` by exactly 1, updates
`updated_at`, and also overwrites `next_run` with `now`; the selected
job's `id`, `command`, `max_retries`, `priority`, `created_at` and
`last_exit_code`, and every other job in the store, are unchanged. -/
theorem claim_C4_claim_frame (nowT nowIso : Int) (s : List Job) (j : Job)
    (h : selectJob nowT s = some j) :
    (claimStep nowT nowIso s).1 = some j.id ∧
    (claimStep nowT nowIso s).2.length = s.length ∧
    ∀ i (hi : i < s.length) (hi2 : i < (claimStep nowT nowIso s).2.length),
      ((claimStep nowT nowIso s).2[i].id = s[i].id ∧
       (claimStep nowT nowIso s).2[i].command = s[i].command ∧
       (claimStep nowT nowIso s).2[i].max_retries = s[i].max_retries ∧
       (claimStep nowT nowIso s).2[i].priority = s[i].priority ∧
       (claimStep nowT nowIso s).2[i].created_at = s[i].created_at ∧
       (claimStep nowT nowIso s).2[i].last_exit_code = s[i].last_exit_code) ∧
      (s[i].id ≠ j.id → (claimStep nowT nowIso s).2[i] = s[i]) ∧
      (s[i].id = j.id →
        (claimStep nowT nowIso s).2[i].state = "processing" ∧
        (claimStep nowT nowIso s).2[i].attempts = s[i].attempts + 1 ∧
        (claimStep nowT nowIso s).2[i].updated_at = nowIso ∧
        (claimStep nowT nowIso s).2[i].next_run = nowT) := by
  have hstep : claimStep nowT nowIso s
      = (some j.id, updateById j.id (claimMut nowT nowIso) s) := by
    simp [claimStep, h]
  simp only [hstep, updateById, List.length_map, List.getElem_map]
  refine ⟨trivial, trivial, ?_⟩
  intro i hi hi2
  by_cases hid : s[i].id = j.id
  · simp [claimMut, hid]
  · simp [claimMut, hid]

/-- C4 amended, at a concrete input: claiming the one-job table `[cJobD]`
at t = 10 reports the mutated row `jobD` and keeps the table's length. -/
theorem claim_C4_claim_frame_witness :
    (claimStep 10 10 [cJobD]).1 = some cJobD.id ∧
    (claimStep 10 10 [cJobD]).2.length = [cJobD].length := by
  have h := claim_C4_claim_frame 10 10 [cJobD] cJobD (by decide)
  exact ⟨h.1, h.2.1⟩

/-- C5: after an execution, the job's state becomes `completed` exactly
when the recorded exit code was 0, and on that success path `attempts`,
`max_retries`, `priority` and `created_at` are untouched while
`last_exit_code` is recorded as 0. -/
theorem claim_C5_completed_iff :
    (∀ (e base nowT nowIso : Int) (j : Job),
        ((decideOutcome e base nowT nowIso j).state = "completed" ↔ e = 0)) ∧
    (∀ (base nowT nowIso : Int) (j : Job),
        (decideOutcome 0 base nowT nowIso j).attempts = j.attempts ∧
        (decideOutcome 0 base nowT nowIso j).max_retries = j.max_retries ∧
        (decideOutcome 0 base nowT nowIso j).priority = j.priority ∧
        (decideOutcome 0 base nowT nowIso j).created_at = j.created_at ∧
        (decideOutcome 0 base nowT nowIso j).last_exit_code = some 0) := by
  constructor
  · intro e base nowT nowIso j
    by_cases he : e = 0
    · subst he
      simp [decideOutcome, decideRow]
    · by_cases hgt : (j.attempts : Int) > j.max_retries
      · simp [decideOutcome, decideRow, he, hgt]
      · simp [decideOutcome, decideRow, he, hgt]
  · intro base nowT nowIso j
    simp [decideOutcome, decideRow]

/-- C6: an execution that exceeds the `job_timeout` deadline is recorded
with the sentinel exit code `-1`, and with that code the decision engine
produces exactly the state, `next_run` and `attempts` it produces for any
other non-zero exit code (only the recorded `last_exit_code` differs). -/
theorem claim_C6_timeout_sentinel (timeout duration code : Int)
    (h : ¬ duration ≤ timeout) :
    recordedExit (execute timeout duration code) = -1 ∧
    (∀ (base nowT nowIso : Int) (j : Job),
      (decideOutcome (recordedExit (execute timeout duration code))
          base nowT nowIso j).last_exit_code = some (-1)) ∧
    (∀ (e base nowT nowIso : Int) (j : Job), e ≠ 0 →
      (decideOutcome (-1) base nowT nowIso j).state
          = (decideOutcome e base nowT nowIso j).state ∧
      (decideOutcome (-1) base nowT nowIso j).next_run
          = (decideOutcome e base nowT nowIso j).next_run ∧
      (decideOutcome (-1) base nowT nowIso j).attempts
          = (decideOutcome e base nowT nowIso j).attempts) := by
  have hx : execute timeout duration code = .timedOut := by
    simp [execute, h]
  refine ⟨by simp [hx, recordedExit], ?_, ?_⟩
  · intro base nowT nowIso j
    rw [hx]
    by_cases hgt : (j.attempts : Int) > j.max_retries
    · simp [decideOutcome, decideRow, recordedExit, hgt]
    · simp [decideOutcome, decideRow, recordedExit, hgt]
  · intro e base nowT nowIso j he
    by_cases hgt : (j.attempts : Int) > j.max_retries
    · simp [decideOutcome, decideRow, he, hgt]
    · simp [decideOutcome, decideRow, he, hgt]

/-- C6 at a concrete input: a command that runs 31 seconds against a
30-second `job_timeout` is recorded with exit code `-1`. -/
theorem claim_C6_timeout_sentinel_witness :
    recordedExit (execute 30 31 0) = -1 :=
  (claim_C6_timeout_sentinel 30 31 0 (by decide)).1

/-- C7: `dlq retry` succeeds exactly when a job with the given id exists
in state `dead`; on success that job is set back to `pending` with
`attempts = 0` and `next_run = now`, and on failure (unknown id or
non-dead state) the table is left entirely unchanged. -/
theorem claim_C7_dlq_retry (nowT nowIso : Int) (jid : String) (s : List Job) :
    ((dlq_retry nowT nowIso jid s).1 = true ↔
        ∃ j ∈ s, j.id = jid ∧ j.state = "dead") ∧
    ((dlq_retry nowT nowIso jid s).1 = false →
        (dlq_retry nowT nowIso jid s).2 = s) ∧
    ((dlq_retry nowT nowIso jid s).1 = true →
        ∃ j ∈ (dlq_retry nowT nowIso jid s).2,
          j.id = jid ∧ j.state = "pending" ∧ j.attempts = 0 ∧
          j.next_run = nowT ∧ j.updated_at = nowIso) := by
  by_cases hfound : s.any (fun j => j.id == jid && j.state == "dead") = true
  · have h2 : ∃ j ∈ s, j.id = jid ∧ j.state = "dead" := by
      obtain ⟨j, hj, hprop⟩ := List.any_eq_true.mp hfound
      exact ⟨j, hj, by simpa using hprop⟩
    refine ⟨by simp [dlq_retry, hfound, h2], ?_, ?_⟩
    · intro hfalse
      rw [dlq_retry] at hfalse
      simp only [hfound, if_true] at hfalse
      cases hfalse
    · intro _
      obtain ⟨j, hj, hid, _⟩ := h2
      refine ⟨dlqReset nowT nowIso j, ?_, by simp [dlqReset, hid],
              by simp [dlqReset], by simp [dlqReset], by simp [dlqReset],
              by simp [dlqReset]⟩
      simp only [dlq_retry, hfound, if_true, updateById]
      have hm := List.mem_map_of_mem
        (fun x => if x.id = jid then dlqReset nowT nowIso x else x) hj
      simpa [hid] using hm
  · have h2 : ¬ ∃ j ∈ s, j.id = jid ∧ j.state = "dead" := by
      intro ⟨j, hj, hid, hst⟩
      exact hfound (List.any_eq_true.mpr ⟨j, hj, by simp [hid, hst]⟩)
    refine ⟨by simp [dlq_retry, hfound, h2], ?_, ?_⟩
    · intro _
      simp [dlq_retry, hfound]
    · intro htrue
      rw [dlq_retry] at htrue
      simp only [hfound, if_false] at htrue
      cases htrue

/-- C8: enqueue rejects a malformed payload or one missing `id` or
`command` with an input error, rejects a duplicate id with a conflict
error leaving the store entirely unchanged, and on success appends the
job with `state = 'pending'`, `attempts = 0`, recording `id` and
`command`, with defaults `max_retries = 3`, `priority = 0` and
`next_run = now` for absent fields. -/
theorem claim_C8_enqueue (nowT nowIso : Int) (s : List Job) :
    (enqueue none nowT nowIso s = (.invalid, s)) ∧
    (∀ p : Payload, p.id = none ∨ p.command = none →
        enqueue (some p) nowT nowIso s = (.invalid, s)) ∧
    (∀ (p : Payload) (jid cmd : String),
        p.id = some jid → p.command = some cmd → (∃ j ∈ s, j.id = jid) →
        enqueue (some p) nowT nowIso s = (.conflict, s)) ∧
    (∀ (p : Payload) (jid cmd : String),
        p.id = some jid → p.command = some cmd → (∀ j ∈ s, j.id ≠ jid) →
        ∃ row : Job,
          enqueue (some p) nowT nowIso s = (.inserted, s ++ [row]) ∧
          row.id = jid ∧ row.command = cmd ∧ row.state = "pending" ∧
          row.attempts = 0 ∧
          (p.max_retries = none → row.max_retries = 3) ∧
          (p.priority = none → row.priority = 0) ∧
          (p.run_at = none → row.next_run = nowT)) := by
  refine ⟨rfl, ?_, ?_, ?_⟩
  · intro p hp
    rcases hp with hid | hcmd
    · simp [enqueue, hid]
    · rw [enqueue]
      cases hpid : p.id with
      | none => simp
      | some jid => simp [hcmd]
  · intro p jid cmd hid hcmd hdup
    have hany : s.any (fun j => j.id == jid) = true := by
      obtain ⟨j, hj, hjid⟩ := hdup
      exact List.any_eq_true.mpr ⟨j, hj, by simp [hjid]⟩
    simp [enqueue, hid, hcmd, hany]
  · intro p jid cmd hid hcmd hfresh
    have hany : s.any (fun j => j.id == jid) = false := by
      rw [Bool.eq_false_iff]
      intro hc
      obtain ⟨j, hj, hjid⟩ := List.any_eq_true.mp hc
      exact hfresh j hj (by simpa using hjid)
    refine ⟨insertedRow p jid cmd nowT nowIso, ?_, rfl, rfl, rfl, rfl,
            ?_, ?_, ?_⟩
    · simp [enqueue, hid, hcmd, hany]
    · intro hmr
      simp [insertedRow, hmr]
    · intro hpr
      simp [insertedRow, hpr]
    · intro hra
      simp [insertedRow, hra]

lemma storeOK_updateById {s : List Job} (h : StoreOK s) (jid : String)
    (f : Job → Job) (hf : ∀ j, (f j).state ∈ writtenStates) :
    StoreOK (updateById jid f s) := by
  intro x hx
  rw [updateById, List.mem_map] at hx
  obtain ⟨a, ha, rfl⟩ := hx
  by_cases hid : a.id = jid
  · rw [if_pos hid]
    exact hf a
  · rw [if_neg hid]
    exact h a ha

/-- C9: every writing operation — enqueue, the claim `UPDATE`, the
post-execution persist, DLQ retry — keeps every row's state inside
`{pending, processing, completed, dead}`; in particular the extra
`failed` value the `status` display enumerates (queuectl.py line 281)
is never stored. -/
theorem claim_C9_state_values (nowT nowIso e base : Int)
    (input : Option Payload) (jid : String) (fetched : Job) (s : List Job)
    (h : StoreOK s) :
    StoreOK (enqueue input nowT nowIso s).2 ∧
    StoreOK (claimStep nowT nowIso s).2 ∧
    StoreOK (persistOutcome e base nowT nowIso fetched s) ∧
    StoreOK (dlq_retry nowT nowIso jid s).2 ∧
    "failed" ∉ writtenStates := by
  refine ⟨?_, ?_, ?_, ?_, by decide⟩
  · rcases input with _ | p
    · exact h
    · rcases hpid : p.id with _ | jid2
      · simp only [enqueue, hpid]
        exact h
      · rcases hpcmd : p.command with _ | cmd
        · simp only [enqueue, hpid, hpcmd]
          exact h
        · by_cases hany : s.any (fun j => j.id == jid2) = true
          · simp only [enqueue, hpid, hpcmd, hany, if_pos]
            exact h
          · intro x hx
            simp only [enqueue, hpid, hpcmd] at hx
            rw [if_neg hany] at hx
            rcases List.mem_append.mp hx with hxs | hxr
            · exact h x hxs
            · have hxi : x = insertedRow p jid2 cmd nowT nowIso :=
                List.mem_singleton.mp hxr
              rw [hxi]
              show ("pending" : String) ∈ writtenStates
              decide
  · rcases hsel : selectJob nowT s with _ | j
    · simp only [claimStep, hsel]
      exact h
    · simp only [claimStep, hsel]
      refine storeOK_updateById h _ _ (fun x => ?_)
      show ("processing" : String) ∈ writtenStates
      decide
  · refine storeOK_updateById h _ _ (fun x => ?_)
    rw [decideRow]
    by_cases he : e = 0
    · rw [if_pos he]
      show ("completed" : String) ∈ writtenStates
      decide
    · rw [if_neg he]
      by_cases hgt : (fetched.attempts : Int) > fetched.max_retries
      · rw [if_pos hgt]
        show ("dead" : String) ∈ writtenStates
        decide
      · rw [if_neg hgt]
        show ("pending" : String) ∈ writtenStates
        decide
  · rw [dlq_retry]
    by_cases hfound : s.any (fun j => j.id == jid && j.state == "dead") = true
    · rw [if_pos hfound]
      refine storeOK_updateById h _ _ (fun x => ?_)
      show ("pending" : String) ∈ writtenStates
      decide
    · rw [if_neg hfound]
      exact h

/-- C9 at a concrete input: enqueueing nothing over the one-row table
`[cJobA]` leaves a table whose every state is a written state. -/
theorem claim_C9_state_values_witness :
    StoreOK (enqueue none 0 0 [cJobA]).2 :=
  (claim_C9_state_values 0 0 1 2 none "jobA" cJobA [cJobA]
    (by show ∀ j ∈ [cJobA], j.state ∈ writtenStates
        decide)).1

/-- C10: a successful DLQ retry rewrites only `state`, `attempts`,
`next_run` and `updated_at` of the row keyed by the id; `id`, `command`,
`max_retries`, `priority`, `created_at` and `last_exit_code` of that row
— in particular the recorded failure exit code — and every other row are
unchanged. -/
theorem claim_C10_dlq_frame (nowT nowIso : Int) (jid : String)
    (s : List Job) (h : (dlq_retry nowT nowIso jid s).1 = true) :
    (dlq_retry nowT nowIso jid s).2.length = s.length ∧
    ∀ i (hi : i < s.length) (hi2 : i < (dlq_retry nowT nowIso jid s).2.length),
      ((dlq_retry nowT nowIso jid s).2[i].id = s[i].id ∧
       (dlq_retry nowT nowIso jid s).2[i].command = s[i].command ∧
       (dlq_retry nowT nowIso jid s).2[i].max_retries = s[i].max_retries ∧
       (dlq_retry nowT nowIso jid s).2[i].priority = s[i].priority ∧
       (dlq_retry nowT nowIso jid s).2[i].created_at = s[i].created_at ∧
       (dlq_retry nowT nowIso jid s).2[i].last_exit_code = s[i].last_exit_code) ∧
      (s[i].id ≠ jid → (dlq_retry nowT nowIso jid s).2[i] = s[i]) ∧
      (s[i].id = jid →
        (dlq_retry nowT nowIso jid s).2[i].state = "pending" ∧
        (dlq_retry nowT nowIso jid s).2[i].attempts = 0 ∧
        (dlq_retry nowT nowIso jid s).2[i].next_run = nowT ∧
        (dlq_retry nowT nowIso jid s).2[i].updated_at = nowIso) := by
  have hfound : s.any (fun j => j.id == jid && j.state == "dead") = true := by
    by_contra hc
    rw [dlq_retry, if_neg hc] at h
    cases h
  have hres : dlq_retry nowT nowIso jid s
      = (true, updateById jid (dlqReset nowT nowIso) s) := by
    rw [dlq_retry, if_pos hfound]
  simp only [hres, updateById, List.length_map, List.getElem_map]
  refine ⟨trivial, ?_⟩
  intro i hi hi2
  by_cases hid : s[i].id = jid
  · simp [dlqReset, hid]
  · simp [dlqReset, hid]

/-- C10 at a concrete input: retrying the dead job `jobX` keeps the
table's length. -/
theorem claim_C10_dlq_frame_witness :
    (dlq_retry 20 20 "jobX" [cJobDead]).2.length = [cJobDead].length :=
  (claim_C10_dlq_frame 20 20 "jobX" [cJobDead] (by decide)).1
